import Mathlib

/-!
Verification development for the `shmail` synchronization core.

The definitions below are a shallow embedding of:
  * `src/shmail/services/db.py`      (SQLite-backed `DatabaseService`)
  * `src/shmail/services/sync.py`    (`SyncService.incremental_sync`,
                                      `SyncService._process_history_record`, `SyncResult`)
  * `src/shmail/services/parser.py`  (`MessageParser.parse_gmail_response`, timestamp logic)
  * `src/shmail/models/__init__.py`  (the pydantic `Email` model's declared fields)

SQL tables are modeled as `Finset`s of rows (a SQL table with a primary key is a
set of rows; every statement issued by the code is keyed, so no duplicate rows
arise).  Each `DatabaseService` write method is a pure `Store → Store` function
translated statement-by-statement from the SQL it executes.

An important platform fact used throughout: `sqlite3.connect` leaves foreign-key
enforcement OFF unless `PRAGMA foreign_keys=ON` is issued on the connection.
`DatabaseService.get_connection` (db.py lines 24-31) never issues that pragma,
so the `ON DELETE CASCADE` clauses declared in `initialize` (db.py lines 75-83)
are inert: `DELETE FROM emails` and `INSERT OR REPLACE INTO emails` do not touch
`email_labels` rows.  The embedding reflects the executed semantics.
-/

namespace Shmail

/-- A row of the `emails` table (db.py lines 50-65).  The `timestamp` column is
stored by the code as `email.timestamp.isoformat()`; since ISO rendering of UTC
datetimes is injective and order-preserving, the row keeps the epoch value in
milliseconds as an `Int`. -/
structure EmailRow where
  id : String
  thread_id : String
  subject : String
  sender : String
  recipient_to : Option String
  recipient_cc : Option String
  recipient_bcc : Option String
  snippet : String
  body : Option String
  timestamp : Int
  is_read : Bool
  has_attachments : Bool
deriving DecidableEq, Repr

/-- A row of the `labels` table (db.py lines 67-73): `id TEXT PRIMARY KEY`,
`name TEXT UNIQUE`, `type TEXT`.  Also used for the `Label` domain model. -/
structure LabelRow where
  id : String
  name : String
  type : String
deriving DecidableEq, Repr

/-- A row of the `contacts` table (db.py lines 92-99).  `interaction_count`
defaults to 1 on insert; `last_interaction` holds the ISO timestamp string the
code passes in, compared by SQLite's `MAX` as text. -/
structure ContactRow where
  email : String
  name : Option String
  interaction_count : Nat
  last_interaction : String
deriving DecidableEq, Repr

/-- The whole SQLite database: `emails`, `labels`, `email_labels` (membership
pairs `(email_id, label_id)`, db.py lines 75-83), `contacts`, and the
`metadata` key/value table (db.py lines 85-90) holding the sync cursor under
key `"history_id"`. -/
structure Store where
  emails : Finset EmailRow
  labels : Finset LabelRow
  memberships : Finset (String × String)
  contacts : Finset ContactRow
  metadata : Finset (String × String)
deriving DecidableEq

/-- The empty database, as produced by `DatabaseService.initialize` on a fresh
file (all tables created empty). -/
def emptyStore : Store := ⟨∅, ∅, ∅, ∅, ∅⟩

/-- The `Email` domain entity as consumed by `DatabaseService.upsert_email`
(db.py lines 153-184): the scalar columns plus the `labels` list.  (The pydantic
class `Email` in models/__init__.py actually declares fewer fields; that
discrepancy is modeled separately below via `emailModelFields`.) -/
structure Email where
  id : String
  thread_id : String
  subject : String
  sender : String
  recipient_to : Option String
  recipient_cc : Option String
  recipient_bcc : Option String
  snippet : String
  body : Option String
  timestamp : Int
  is_read : Bool
  has_attachments : Bool
  labels : List LabelRow
deriving DecidableEq, Repr

/-- The scalar row written for an entity by the `INSERT OR REPLACE INTO emails`
statement (db.py lines 154-174). -/
def Email.row (e : Email) : EmailRow :=
  ⟨e.id, e.thread_id, e.subject, e.sender, e.recipient_to, e.recipient_cc,
   e.recipient_bcc, e.snippet, e.body, e.timestamp, e.is_read, e.has_attachments⟩

/-! ### Table-level semantics of the individual SQL statements -/

/-- `INSERT OR REPLACE INTO emails ...` (db.py lines 154-174): any existing row
with the same primary key `id` is deleted, then the new row is inserted.
(With foreign keys unenforced, the implicit delete does not cascade.) -/
def replaceEmailT (row : EmailRow) (E : Finset EmailRow) : Finset EmailRow :=
  insert row (E.filter (fun r => r.id ≠ row.id))

/-- `DELETE FROM emails WHERE id = ?` (db.py line 224). -/
def deleteEmailT (eid : String) (E : Finset EmailRow) : Finset EmailRow :=
  E.filter (fun r => r.id ≠ eid)

/-- `INSERT OR IGNORE INTO labels (id, name, type) VALUES (?, ?, ?)`
(db.py lines 177-180): the insert is ignored when it would violate any
uniqueness constraint, i.e. when some existing row shares the primary key `id`
or the `UNIQUE` column `name`. -/
def insertLabelIgnoreT (l : LabelRow) (L : Finset LabelRow) : Finset LabelRow :=
  if ∃ r ∈ L, r.id = l.id ∨ r.name = l.name then L else insert l L

/-- The label-insert loop of `upsert_email` (db.py lines 176-180), one ignored
insert per entity label, in list order. -/
def insertLabelsIgnoreT (ls : List LabelRow) (L : Finset LabelRow) : Finset LabelRow :=
  ls.foldl (fun L l => insertLabelIgnoreT l L) L

/-- `INSERT OR REPLACE INTO labels (id, name, type) VALUES (?, ?, ?)`
(db.py lines 229-232, `upsert_label`): all rows conflicting on `id` or on the
`UNIQUE` name are deleted, then the new row is inserted. -/
def replaceLabelT (l : LabelRow) (L : Finset LabelRow) : Finset LabelRow :=
  insert l (L.filter (fun r => r.id ≠ l.id ∧ r.name ≠ l.name))

/-- `INSERT OR IGNORE INTO email_labels (email_id, label_id) VALUES (?, ?)`
(db.py lines 181-184 and 217-221): add-if-absent on the composite primary key,
which is the whole row, so this is exactly set insertion. -/
def insertMemsT (eid : String) (lids : List String) (M : Finset (String × String)) :
    Finset (String × String) :=
  lids.foldl (fun M lid => insert (eid, lid) M) M

/-- `DELETE FROM email_labels WHERE email_id = ? AND label_id IN (...)`
(db.py lines 211-214). -/
def removeMemsT (eid : String) (removed : List String) (M : Finset (String × String)) :
    Finset (String × String) :=
  M.filter (fun p => ¬(p.1 = eid ∧ p.2 ∈ removed))

/-! #### SQLite BINARY text collation

SQLite compares `TEXT` values by `memcmp` on their UTF-8 bytes, which orders
strings lexicographically by code point.  The comparison is spelled out on the
character list so that it is executable. -/

/-- Lexicographic code-point comparison of character lists (SQLite BINARY
collation): `a < b`. -/
def charListLtB : List Char → List Char → Bool
  | [], [] => false
  | [], _ :: _ => true
  | _ :: _, [] => false
  | a :: as, b :: bs =>
    if a.toNat < b.toNat then true
    else if b.toNat < a.toNat then false
    else charListLtB as bs

/-- Strict BINARY-collation comparison of two text values. -/
def strLtB (a b : String) : Bool := charListLtB a.data b.data

/-- Non-strict BINARY-collation comparison of two text values. -/
def strLeB (a b : String) : Bool := !(strLtB b a)

/-- The SQLite scalar `MAX` of two text values (used on `last_interaction`). -/
def textMax (a b : String) : String := if strLtB a b then b else a

/-- `upsert_contact` (db.py lines 186-199): plain insert with
`interaction_count` defaulting to 1, or on email-key conflict an update that
keeps the old name when the incoming one is NULL (`COALESCE`), increments the
count, and takes the `MAX` of the interaction timestamps. -/
def upsertContactT (em : String) (nm : Option String) (ts : String)
    (C : Finset ContactRow) : Finset ContactRow :=
  if ∃ c ∈ C, c.email = em then
    C.image (fun c =>
      if c.email = em then
        ⟨c.email, (nm.elim c.name some), c.interaction_count + 1,
         textMax c.last_interaction ts⟩
      else c)
  else
    insert ⟨em, nm, 1, ts⟩ C

/-- `INSERT OR REPLACE INTO metadata (key, value) VALUES (?, ?)`
(db.py lines 147-151, `set_metadata`). -/
def setMetaT (k v : String) (M : Finset (String × String)) : Finset (String × String) :=
  insert (k, v) (M.filter (fun p => p.1 ≠ k))

/-! ### `DatabaseService` write methods as `Store → Store` -/

/-- The SQL statements of `DatabaseService.upsert_email` (db.py lines
153-184): replace the scalar row, then for each entity label an ignored label
insert and an ignored membership insert.  The three statement groups touch
three distinct tables.  These statements run only if the preceding attribute
reads of the entity succeed — which on a program-constructed pydantic `Email`
they never do (it declares no recipient fields); `upsert_email_exec` below
models the call as executed, reads included. -/
def upsert_email (e : Email) (s : Store) : Store :=
  { s with
    emails := replaceEmailT e.row s.emails
    labels := insertLabelsIgnoreT e.labels s.labels
    memberships := insertMemsT e.id (e.labels.map (fun l => l.id)) s.memberships }

/-- `DatabaseService.update_labels` (db.py lines 201-221): delete the removed
membership pairs first (statement skipped when the list is empty), then insert
the added pairs if absent (skipped when empty). -/
def update_labels (eid : String) (added removed : List String) (s : Store) : Store :=
  { s with
    memberships :=
      insertMemsT eid added
        (if removed = [] then s.memberships else removeMemsT eid removed s.memberships) }

/-- `DatabaseService.remove_email` (db.py lines 223-224).  Foreign keys are not
enforced on the connection (no `PRAGMA foreign_keys=ON` in `get_connection`),
so the declared `ON DELETE CASCADE` does not fire: `email_labels` rows
referencing the deleted message survive. -/
def remove_email (eid : String) (s : Store) : Store :=
  { s with emails := deleteEmailT eid s.emails }

/-- `DatabaseService.upsert_label` (db.py lines 226-232). -/
def upsert_label (lid lname ltype : String) (s : Store) : Store :=
  { s with labels := replaceLabelT ⟨lid, lname, ltype⟩ s.labels }

/-- `DatabaseService.upsert_contact` (db.py lines 186-199). -/
def upsert_contact (em : String) (nm : Option String) (ts : String) (s : Store) : Store :=
  { s with contacts := upsertContactT em nm ts s.contacts }

/-- `DatabaseService.set_metadata` (db.py lines 147-151). -/
def set_metadata (k v : String) (s : Store) : Store :=
  { s with metadata := setMetaT k v s.metadata }

/-! #### Order facts about the BINARY collation -/

theorem char_toNat_inj {a b : Char} (h : a.toNat = b.toNat) : a = b :=
  Char.eq_of_val_eq (UInt32.ext h)

theorem charListLtB_irrefl : ∀ l, charListLtB l l = false
  | [] => rfl
  | a :: as => by simp [charListLtB, charListLtB_irrefl as]

theorem charListLtB_asymm :
    ∀ a b, charListLtB a b = true → charListLtB b a = false
  | [], [], h => by simp [charListLtB] at h
  | [], _ :: _, _ => rfl
  | _ :: _, [], h => by simp [charListLtB] at h
  | a :: as, b :: bs, h => by
    simp only [charListLtB] at h ⊢
    split_ifs at h ⊢ with h1 h2 h3 h4 <;> try omega
    · rfl
    · exact charListLtB_asymm as bs h
    all_goals simp_all

theorem charListLtB_trans :
    ∀ a b c, charListLtB a b = true → charListLtB b c = true → charListLtB a c = true
  | [], [], _, h, _ => by simp [charListLtB] at h
  | [], _ :: _, [], _, h => by simp [charListLtB] at h
  | [], _ :: _, _ :: _, _, _ => rfl
  | _ :: _, [], _, h, _ => by simp [charListLtB] at h
  | _ :: _, _ :: _, [], _, h => by simp [charListLtB] at h
  | a :: as, b :: bs, c :: cs, h, h2 => by
    simp only [charListLtB] at h h2 ⊢
    split_ifs at h h2 ⊢ <;> try omega
    all_goals first
      | rfl
      | (exact charListLtB_trans as bs cs h h2)
      | simp_all

theorem charListLtB_eq_of_not_lt :
    ∀ a b, charListLtB a b = false → charListLtB b a = false → a = b
  | [], [], _, _ => rfl
  | [], _ :: _, h, _ => by simp [charListLtB] at h
  | _ :: _, [], _, h => by simp [charListLtB] at h
  | a :: as, b :: bs, h, h2 => by
    simp only [charListLtB] at h h2
    split_ifs at h h2 with h1 h3 <;> try omega
    have hhd : a = b := char_toNat_inj (by omega)
    have htl : as = bs := charListLtB_eq_of_not_lt as bs h h2
    rw [hhd, htl]

theorem str_eq_of_data_eq {a b : String} (h : a.data = b.data) : a = b := by
  cases a; cases b; exact congrArg String.mk h

theorem strLtB_asymm {a b : String} (h : strLtB a b = true) : strLtB b a = false :=
  charListLtB_asymm a.data b.data h

theorem strLtB_trans {a b c : String} (h : strLtB a b = true)
    (h2 : strLtB b c = true) : strLtB a c = true :=
  charListLtB_trans a.data b.data c.data h h2

theorem strLtB_irrefl (a : String) : strLtB a a = false :=
  charListLtB_irrefl a.data

theorem strLtB_eq_of_not_lt {a b : String} (h : strLtB a b = false)
    (h2 : strLtB b a = false) : a = b :=
  str_eq_of_data_eq (charListLtB_eq_of_not_lt a.data b.data h h2)

/-- `x < y` or `y ≤ x`, in BINARY collation. -/
theorem strLtB_or_ge (a b : String) : strLtB a b = true ∨ strLeB b a = true := by
  unfold strLeB
  cases h : strLtB a b
  · simp
  · exact Or.inl rfl

theorem strLeB_trans {a b c : String} (h : strLeB a b = true)
    (h2 : strLeB b c = true) : strLeB a c = true := by
  simp only [strLeB, Bool.not_eq_true', Bool.not_eq_false] at h h2 ⊢
  cases hca : strLtB c a
  · rfl
  · cases hab : strLtB a b
    · have : a = b := strLtB_eq_of_not_lt hab h
      subst this
      exact absurd hca (by simp [h2])
    · exact absurd (strLtB_trans hca hab) (by simp [h2])

theorem strLeB_antisymm {a b : String} (h : strLeB a b = true)
    (h2 : strLeB b a = true) : a = b := by
  simp only [strLeB, Bool.not_eq_true'] at h h2
  exact strLtB_eq_of_not_lt h2 h

/-- A total order on metadata rows, used only to enumerate the (at most one)
row matching a key deterministically. -/
def metaOrd (p q : String × String) : Prop :=
  strLtB p.1 q.1 = true ∨ (p.1 = q.1 ∧ strLeB p.2 q.2 = true)

instance : DecidableRel metaOrd := fun p q => by
  unfold metaOrd; infer_instance

instance : IsTrans (String × String) metaOrd where
  trans p q r hpq hqr := by
    rcases hpq with h | ⟨e, h⟩ <;> rcases hqr with h' | ⟨e', h'⟩
    · exact Or.inl (strLtB_trans h h')
    · exact Or.inl (e' ▸ h)
    · exact Or.inl (e ▸ h')
    · exact Or.inr ⟨e.trans e', strLeB_trans h h'⟩

instance : IsAntisymm (String × String) metaOrd where
  antisymm p q hpq hqp := by
    rcases hpq with h | ⟨e, h⟩ <;> rcases hqp with h' | ⟨e', h'⟩
    · exact absurd (strLtB_trans h h') (by simp [strLtB_irrefl])
    · rw [e'] at h; exact absurd h (by simp [strLtB_irrefl])
    · rw [e] at h'; exact absurd h' (by simp [strLtB_irrefl])
    · exact Prod.ext e (strLeB_antisymm h h')

instance : IsTotal (String × String) metaOrd where
  total p q := by
    cases h : strLtB p.1 q.1
    · cases h2 : strLtB q.1 p.1
      · have e : p.1 = q.1 := strLtB_eq_of_not_lt h h2
        rcases strLtB_or_ge p.2 q.2 with h3 | h3
        · exact Or.inl (Or.inr ⟨e, by simp [strLeB, strLtB_asymm h3]⟩)
        · exact Or.inr (Or.inr ⟨e.symm, h3⟩)
      · exact Or.inr (Or.inl h2)
    · exact Or.inl (Or.inl h)

/-- `DatabaseService.get_metadata` (db.py lines 107-112): `fetchone()` on the
rows matching the key.  Write paths keep at most one row per key, so the
enumeration order is immaterial. -/
def get_metadata (s : Store) (k : String) : Option String :=
  (((s.metadata.filter (fun p => p.1 = k)).sort metaOrd).head?).map (fun p => p.2)

/-- The `ORDER BY type ASC, name ASC` requirement of `get_labels`
(db.py line 133), with SQLite's BINARY text collation. -/
def labelLE (a b : LabelRow) : Prop :=
  strLtB a.type b.type = true ∨ (a.type = b.type ∧ strLeB a.name b.name = true)

instance : DecidableRel labelLE := fun a b => by
  unfold labelLE; infer_instance

/-- A linear refinement of `labelLE` breaking `(type, name)` ties by `id`; SQL
leaves the order of tied rows unspecified, so enumerating them by `id` is an
admissible refinement. -/
def labelOrd (a b : LabelRow) : Prop :=
  strLtB a.type b.type = true
  ∨ (a.type = b.type
      ∧ (strLtB a.name b.name = true
          ∨ (a.name = b.name ∧ strLeB a.id b.id = true)))

instance : DecidableRel labelOrd := fun a b => by
  unfold labelOrd; infer_instance

instance : IsTrans LabelRow labelOrd where
  trans a b c hab hbc := by
    rcases hab with h | ⟨e, h | ⟨e2, h⟩⟩ <;> rcases hbc with h' | ⟨e', h' | ⟨e2', h'⟩⟩
    · exact Or.inl (strLtB_trans h h')
    · exact Or.inl (e' ▸ h)
    · exact Or.inl (e' ▸ h)
    · exact Or.inl (e ▸ h')
    · exact Or.inr ⟨e.trans e', Or.inl (strLtB_trans h h')⟩
    · exact Or.inr ⟨e.trans e', Or.inl (e2' ▸ h)⟩
    · exact Or.inl (e ▸ h')
    · exact Or.inr ⟨e.trans e', Or.inl (e2 ▸ h')⟩
    · exact Or.inr ⟨e.trans e', Or.inr ⟨e2.trans e2', strLeB_trans h h'⟩⟩

instance : IsAntisymm LabelRow labelOrd where
  antisymm a b hab hba := by
    rcases hab with h | ⟨e, h | ⟨e2, h⟩⟩ <;> rcases hba with h' | ⟨e', h' | ⟨e2', h'⟩⟩
    · exact absurd (strLtB_trans h h') (by simp [strLtB_irrefl])
    · rw [e'] at h; exact absurd h (by simp [strLtB_irrefl])
    · rw [e'] at h; exact absurd h (by simp [strLtB_irrefl])
    · rw [e] at h'; exact absurd h' (by simp [strLtB_irrefl])
    · exact absurd (strLtB_trans h h') (by simp [strLtB_irrefl])
    · rw [e2'] at h; exact absurd h (by simp [strLtB_irrefl])
    · rw [e] at h'; exact absurd h' (by simp [strLtB_irrefl])
    · rw [e2] at h'; exact absurd h' (by simp [strLtB_irrefl])
    · have hid : a.id = b.id := strLeB_antisymm h h'
      cases a; cases b; simp_all

instance : IsTotal LabelRow labelOrd where
  total a b := by
    cases h : strLtB a.type b.type
    · cases h2 : strLtB b.type a.type
      · have e : a.type = b.type := strLtB_eq_of_not_lt h h2
        cases h3 : strLtB a.name b.name
        · cases h4 : strLtB b.name a.name
          · have e2 : a.name = b.name := strLtB_eq_of_not_lt h3 h4
            rcases strLtB_or_ge a.id b.id with h5 | h5
            · exact Or.inl (Or.inr ⟨e, Or.inr ⟨e2, by simp [strLeB, strLtB_asymm h5]⟩⟩)
            · exact Or.inr (Or.inr ⟨e.symm, Or.inr ⟨e2.symm, h5⟩⟩)
          · exact Or.inr (Or.inr ⟨e.symm, Or.inl h4⟩)
        · exact Or.inl (Or.inr ⟨e, Or.inl h3⟩)
      · exact Or.inr (Or.inl h2)
    · exact Or.inl (Or.inl h)

/-- `DatabaseService.get_labels` (db.py lines 130-135):
`SELECT id, name, type FROM labels ORDER BY type ASC, name ASC`. -/
def get_labels (s : Store) : List LabelRow :=
  s.labels.sort labelOrd

/-! ### The sync engine (sync.py)

`SyncService.incremental_sync` (sync.py lines 94-146) loops over responses of
`gmail.list_history`, each carrying `history` records, a top-level `historyId`
and an optional `nextPageToken`.  Each response's records are applied inside
one `db.transaction()`, ending with `set_metadata(conn, "history_id",
data.historyId)`; an exception inside the scope rolls every write back
(db.py lines 33-43).

The remote side and the per-message fetch+parse pipeline are the engine's
inputs, so they are modeled as data: a feed is a list of items (either a
successfully decoded response page or an exception raised by `list_history`),
and each `messagesAdded` event carries the outcome that
`gmail.get_message` + `MessageParser.parse_gmail_response` would produce for
that message id. -/

/-- The normalizer output for one message: the `Email` entity plus the contact
observations (`ParsedMessage` in models, as consumed in sync.py lines 160-174). -/
structure ParsedMessage where
  email : Email
  contacts : List (String × Option String × String)
deriving DecidableEq

/-- Outcome of `gmail.get_message` + parsing for one `messagesAdded` event
(sync.py lines 159-178): decoded content, an `HttpError` with some status, or a
non-`HttpError` exception from normalization. -/
inductive AddedOutcome where
  | content (pm : ParsedMessage)
  | fetchErr (status : Nat)
  | parseFail
deriving DecidableEq

/-- One history record (`History` DTO): typed sub-lists for added messages,
label additions/removals (message id paired with the event's `labelIds`), and
deleted message ids. -/
structure HistoryRecord where
  messagesAdded : List AddedOutcome
  labelsAdded : List (String × List String)
  labelsRemoved : List (String × List String)
  messagesDeleted : List String
deriving DecidableEq

/-- One decoded `list_history` response: its records and its top-level
`historyId` (the newest cursor value of the page). -/
structure Page where
  records : List HistoryRecord
  historyId : String
deriving DecidableEq

/-- One `gmail.list_history` call's result: a decoded page, an `HttpError`
with a status, or any other exception. -/
inductive FeedItem where
  | page (p : Page)
  | feedHttp (status : Nat)
  | feedOther
deriving DecidableEq

/-- `SyncResult` (sync.py lines 24-35). -/
structure SyncResult where
  added : Nat
  removed : Nat
  labels_changed : Nat
deriving DecidableEq

/-- `SyncResult.any_changes` (sync.py lines 32-35):
`any([self.added, self.removed, self.labels_changed])` on Python ints is
truthiness, i.e. "some counter is nonzero". -/
def SyncResult.any_changes (r : SyncResult) : Bool :=
  r.added ≠ 0 || r.removed ≠ 0 || r.labels_changed ≠ 0

/-- An exception escaping record processing: an `HttpError` carrying a status,
or any other Python exception (e.g. a normalization failure). -/
inductive SyncErr where
  | http (status : Nat)
  | other
deriving DecidableEq

/-! #### Pure (successful) page application

`applyPagePure` is the net store effect of one committed page transaction —
what sync.py lines 122-127 write when no exception escapes — with the content
path idealized: a fetched message's writes are taken to be the SQL that
`upsert_email` prescribes.  (In the running program that SQL is unreachable,
because `upsert_email` raises `AttributeError` on the model's missing
recipient fields before its first statement; the executed semantics is
modeled separately by `processAddedExec`/`attemptPage` below.  The
idealization is sound for the run-characterization and error-dispatch
theorems, which never depend on a completed content write.)  `messagesAdded`
events whose fetch produced anything but content contribute nothing: a 404 is
skipped, any other outcome aborts the transaction. -/

/-- Store effect of one applied `messagesAdded` event with decoded content
(sync.py lines 160-174): `upsert_email` then `upsert_contact` per contact. -/
def applyParsed (pm : ParsedMessage) (s : Store) : Store :=
  pm.contacts.foldl (fun s c => upsert_contact c.1 c.2.1 c.2.2 s) (upsert_email pm.email s)

/-- Store effect of the `messagesAdded` loop, content events applied in order,
others skipped. -/
def applyAddedPure (l : List AddedOutcome) (s : Store) : Store :=
  l.foldl (fun s a => match a with
    | .content pm => applyParsed pm s
    | _ => s) s

/-- Store effect of the `labelsAdded` loop (sync.py lines 180-187): membership
adds, no removals in the same call. -/
def applyLabelAdds (l : List (String × List String)) (s : Store) : Store :=
  l.foldl (fun s la => update_labels la.1 la.2 [] s) s

/-- Store effect of the `labelsRemoved` loop (sync.py lines 188-195). -/
def applyLabelRemoves (l : List (String × List String)) (s : Store) : Store :=
  l.foldl (fun s lr => update_labels lr.1 [] lr.2 s) s

/-- Store effect of the `messagesDeleted` loop (sync.py lines 196-198). -/
def applyDeletes (l : List String) (s : Store) : Store :=
  l.foldl (fun s d => remove_email d s) s

/-- Store effect of `_process_history_record` (sync.py lines 155-198) when it
completes: added messages, label adds, label removes, deletes, in source order. -/
def applyRecordPure (r : HistoryRecord) (s : Store) : Store :=
  applyDeletes r.messagesDeleted
    (applyLabelRemoves r.labelsRemoved
      (applyLabelAdds r.labelsAdded
        (applyAddedPure r.messagesAdded s)))

/-- Store effect of one committed page transaction (sync.py lines 122-127):
all records, then `set_metadata "history_id" page.historyId`. -/
def applyPagePure (p : Page) (s : Store) : Store :=
  set_metadata "history_id" p.historyId (p.records.foldl (fun s r => applyRecordPure r s) s)

/-! #### Effectful processing with exceptions and counters

Same idealization as above on the content path: these functions drive the
run-characterization and error-dispatch theorems, whose statements never
depend on a content write completing. -/

/-- The `messagesAdded` loop of `_process_history_record` (sync.py lines
157-178).  `result.added` is incremented *before* the fetch is attempted; a
fetch `HttpError` with status 404 skips the message (`continue`), any other
`HttpError` is re-raised, and a normalization failure (not an `HttpError`)
propagates. -/
def processAdded : List AddedOutcome → Store → SyncResult → Except SyncErr (Store × SyncResult)
  | [], s, c => .ok (s, c)
  | a :: rest, s, c =>
    let c1 : SyncResult := { c with added := c.added + 1 }
    match a with
    | .content pm => processAdded rest (applyParsed pm s) c1
    | .fetchErr st => if st = 404 then processAdded rest s c1 else .error (.http st)
    | .parseFail => .error .other

/-- `_process_history_record` (sync.py lines 155-198): the label-change and
delete loops cannot raise; each label-change event adds 1 to
`labels_changed` and each delete adds 1 to `removed`. -/
def processRecord (r : HistoryRecord) (s : Store) (c : SyncResult) :
    Except SyncErr (Store × SyncResult) :=
  match processAdded r.messagesAdded s c with
  | .error e => .error e
  | .ok (s1, c1) =>
    .ok (applyDeletes r.messagesDeleted
          (applyLabelRemoves r.labelsRemoved (applyLabelAdds r.labelsAdded s1)),
         { c1 with
            labels_changed := c1.labels_changed + r.labelsAdded.length + r.labelsRemoved.length,
            removed := c1.removed + r.messagesDeleted.length })

/-- The record loop of one page transaction (sync.py lines 123-124). -/
def processRecords : List HistoryRecord → Store → SyncResult → Except SyncErr (Store × SyncResult)
  | [], s, c => .ok (s, c)
  | r :: rest, s, c =>
    match processRecord r s c with
    | .error e => .error e
    | .ok (s1, c1) => processRecords rest s1 c1

/-- One page transaction (sync.py lines 122-127): records then the cursor
write, committed together; an exception yields no store change (rollback,
db.py lines 33-43). -/
def processPage (p : Page) (s : Store) (c : SyncResult) :
    Except SyncErr (Store × SyncResult) :=
  match processRecords p.records s c with
  | .error e => .error e
  | .ok (s1, c1) => .ok (set_metadata "history_id" p.historyId s1, c1)

/-- Outcome of one `incremental_sync` call: a normal return with the
accumulated `SyncResult`, the full-sync fallback (store after `initial_sync`,
which the model keeps abstract, and the sentinel `SyncResult(added=1)`), or a
propagated exception.  Each constructor carries the committed store. -/
inductive SyncOutcome where
  | ok (s : Store) (r : SyncResult)
  | fellBack (s : Store) (r : SyncResult)
  | error (s : Store) (e : SyncErr)
deriving DecidableEq

/-- Number of `initial_sync` invocations on each control path of
`incremental_sync`: exactly one on the fallback paths (sync.py lines 103-107
and 139-143), zero otherwise. -/
def SyncOutcome.fullSyncs : SyncOutcome → Nat
  | .fellBack _ _ => 1
  | _ => 0

/-- The `except HttpError` handler of `incremental_sync` (sync.py lines
139-146): status 404 or 410 falls back to one full sync and returns
`SyncResult(added=1)`; any other status re-raises. -/
def handleHttp (fullSync : Store → Store) (st : Nat) (s : Store) : SyncOutcome :=
  if st = 404 ∨ st = 410 then .fellBack (fullSync s) ⟨1, 0, 0⟩
  else .error s (.http st)

/-- The `while True` loop of `incremental_sync` (sync.py lines 112-137) with
its surrounding `try`/`except HttpError`.  The feed list models the successive
`list_history` results; reaching the end of the list models a response without
`nextPageToken`.  A response with no history records breaks out *before*
opening a transaction, leaving the cursor untouched.  A non-`HttpError`
exception is not caught and propagates. -/
def runLoop (fullSync : Store → Store) : List FeedItem → Store → SyncResult → SyncOutcome
  | [], s, c => .ok s c
  | .feedHttp st :: _, s, _ => handleHttp fullSync st s
  | .feedOther :: _, s, _ => .error s .other
  | .page p :: rest, s, c =>
    if p.records = [] then .ok s c
    else
      match processPage p s c with
      | .ok (s1, c1) => runLoop fullSync rest s1 c1
      | .error (.http st) => handleHttp fullSync st s
      | .error .other => .error s .other

/-- `SyncService.incremental_sync` (sync.py lines 94-146): read the stored
cursor; with none, run `initial_sync` and return the sentinel
`SyncResult(added=1)`; otherwise run the page loop from a zeroed result. -/
def incremental_sync (fullSync : Store → Store) (feed : List FeedItem) (s : Store) :
    SyncOutcome :=
  match get_metadata s "history_id" with
  | none => .fellBack (fullSync s) ⟨1, 0, 0⟩
  | some _ => runLoop fullSync feed s ⟨0, 0, 0⟩

/-! ### Timestamp resolution in `MessageParser.parse_gmail_response`
(parser.py lines 38-55)

Python datetimes are modeled by their civil components; conversion to an epoch
value uses the standard civil-calendar day count (the semantics of
`datetime.timestamp()` for UTC datetimes).  `email.utils.parsedate_to_datetime`
yields either a timezone-naive datetime or one carrying a fixed UTC offset;
an absent or unparsable `Date` header (the code catches `ValueError` and
`TypeError`) is a `none` parse result. -/

/-- A timezone-naive civil datetime. -/
structure NaiveDT where
  year : Int
  month : Int
  day : Int
  hour : Int
  minute : Int
  second : Int
deriving DecidableEq

/-- Days from 1970-01-01 to the given civil date (proleptic Gregorian),
computed with floor division. -/
def civilToDays (y m d : Int) : Int :=
  let y2 := if m ≤ 2 then y - 1 else y
  let era := Int.fdiv y2 400
  let yoe := y2 - era * 400
  let mp := Int.emod (m + 9) 12
  let doy := Int.fdiv (153 * mp + 2) 5 + d - 1
  let doe := yoe * 365 + Int.fdiv yoe 4 - Int.fdiv yoe 100 + doy
  era * 146097 + doe - 719468

/-- Epoch milliseconds of a naive datetime read as UTC. -/
def NaiveDT.epochMs (n : NaiveDT) : Int :=
  (civilToDays n.year n.month n.day * 86400
    + n.hour * 3600 + n.minute * 60 + n.second) * 1000

/-- Result of `email.utils.parsedate_to_datetime`: civil components plus an
optional fixed UTC offset in seconds (`none` = timezone-naive). -/
structure ParsedDate where
  naive : NaiveDT
  offsetSec : Option Int
deriving DecidableEq

/-- Timestamp resolution (parser.py lines 38-55), in epoch milliseconds:
a naive parsed header datetime is reinterpreted as UTC
(`dt.replace(tzinfo=timezone.utc)`); an aware one is converted to UTC
(`dt.astimezone(timezone.utc)`, i.e. the UTC instant `naive - offset`);
with no parsed header the code falls back to
`datetime.fromtimestamp(int(internalDate) / 1000.0, tz=timezone.utc)`,
the transport epoch value itself. -/
def resolveTimestampMs (pd : Option ParsedDate) (internalDateMs : Int) : Int :=
  match pd with
  | none => internalDateMs
  | some d =>
    match d.offsetSec with
    | none => d.naive.epochMs
    | some off => d.naive.epochMs - off * 1000

/-! ### The pydantic `Email` model's declared fields (models/__init__.py
lines 15-25) versus the parser's constructor call and the store's reads

pydantic `BaseModel` ignores constructor keyword arguments that are not
declared fields (default `extra` behavior in both pydantic 1 and 2), and
accessing an undeclared attribute on an instance raises `AttributeError`. -/

/-- The fields declared on `class Email(BaseModel)`
(models/__init__.py lines 15-25). -/
def emailModelFields : List String :=
  ["id", "thread_id", "subject", "sender", "snippet", "body",
   "timestamp", "is_read", "has_attachments", "labels"]

/-- The keyword arguments `MessageParser.parse_gmail_response` passes to the
`Email` constructor (parser.py lines 66-80). -/
def parserEmailKwargs : List String :=
  ["id", "thread_id", "subject", "sender", "recipient_to", "recipient_cc",
   "recipient_bcc", "snippet", "body", "timestamp", "is_read",
   "has_attachments", "labels"]

/-- pydantic construction: the attributes present on the resulting instance
are the passed keywords that are declared fields; extras are dropped. -/
def pydanticAttrs (declared kwargs : List String) : List String :=
  kwargs.filter (fun k => k ∈ declared)

/-- The attributes `DatabaseService.upsert_email` reads off the entity
(db.py lines 160-176): the twelve column values and `email.labels`. -/
def upsertEmailAttrReads : List String :=
  ["id", "thread_id", "subject", "sender", "recipient_to", "recipient_cc",
   "recipient_bcc", "snippet", "body", "timestamp", "is_read",
   "has_attachments", "labels"]

/-- Whether every attribute read succeeds (no `AttributeError`). -/
def attrReadsOk (attrs reads : List String) : Bool :=
  reads.all (fun r => r ∈ attrs)

/-- The attribute set of every `Email` instance the program constructs: the
parser's keyword arguments filtered down to the model's declared fields
(pydantic silently drops the extras). -/
def parsedEmailAttrs : List String :=
  pydanticAttrs emailModelFields parserEmailKwargs

/-! ### Executed call semantics of `upsert_email` and of page processing

The `Store → Store` functions above translate the *SQL statements* of the
write methods.  `upsert_email`, however, first builds its parameter tuple by
reading `email.id`, …, `email.recipient_to`, … (db.py lines 160-173) before
issuing any SQL; on a pydantic `Email` — the only entity type the program
constructs — the read of an undeclared attribute raises `AttributeError`
right there, so the call aborts having written nothing.  The definitions
below model the call, and page processing, as executed. -/

/-- `DatabaseService.upsert_email` as executed on an entity object whose
attribute set is `attrs`: every attribute in `upsertEmailAttrReads` is read
before any SQL runs; a failed read raises `AttributeError` and nothing is
written, otherwise the SQL of `upsert_email` executes. -/
def upsert_email_exec (attrs : List String) (e : Email) (s : Store) :
    Except String Store :=
  if attrReadsOk attrs upsertEmailAttrReads then .ok (upsert_email e s)
  else .error "AttributeError"

/-- An attempted `upsert_email` call under `DatabaseService.transaction`
(db.py lines 33-43): the result commits on success; an exception rolls back
to the original store. -/
def upsert_email_attempt (attrs : List String) (e : Email) (s : Store) : Store :=
  match upsert_email_exec attrs e s with
  | .ok s1 => s1
  | .error _ => s

/-- The `messagesAdded` loop of `_process_history_record` as executed
(sync.py lines 157-178): for a fetched message, `upsert_email` runs first
(line 167) and only on its success does the contact loop (lines 168-174) run;
an `AttributeError` from the upsert is not an `HttpError`, so the
`except HttpError` clause (line 175) does not catch it and it propagates.
Fetch errors dispatch as in `processAdded`. -/
def processAddedExec : List AddedOutcome → Store → Except SyncErr Store
  | [], s => .ok s
  | a :: rest, s =>
    match a with
    | .content pm =>
      match upsert_email_exec parsedEmailAttrs pm.email s with
      | .ok s1 =>
        processAddedExec rest
          (pm.contacts.foldl (fun s c => upsert_contact c.1 c.2.1 c.2.2 s) s1)
      | .error _ => .error .other
    | .fetchErr st => if st = 404 then processAddedExec rest s else .error (.http st)
    | .parseFail => .error .other

/-- The store writes of one record that come after the adds loop — label
adds, label removes, message deletes (sync.py lines 180-198) — which cannot
raise. -/
def recNonAdd (r : HistoryRecord) (s : Store) : Store :=
  applyDeletes r.messagesDeleted
    (applyLabelRemoves r.labelsRemoved (applyLabelAdds r.labelsAdded s))

/-- `_process_history_record` as executed. -/
def processRecordExec (r : HistoryRecord) (s : Store) : Except SyncErr Store :=
  match processAddedExec r.messagesAdded s with
  | .error e => .error e
  | .ok s1 => .ok (recNonAdd r s1)

/-- The record loop of one page transaction, as executed. -/
def processRecordsExec : List HistoryRecord → Store → Except SyncErr Store
  | [], s => .ok s
  | r :: rest, s =>
    match processRecordExec r s with
    | .error e => .error e
    | .ok s1 => processRecordsExec rest s1

/-- One page transaction as executed (sync.py lines 122-127): all records,
then the cursor write. -/
def processPageExec (p : Page) (s : Store) : Except SyncErr Store :=
  match processRecordsExec p.records s with
  | .error e => .error e
  | .ok s1 => .ok (set_metadata "history_id" p.historyId s1)

/-- One *attempted* page application: the transaction commits its result on
success; any exception rolls the whole page back (db.py lines 33-43), leaving
the store exactly as it was. -/
def attemptPage (p : Page) (s : Store) : Store :=
  match processPageExec p s with
  | .ok s1 => s1
  | .error _ => s

/-- Store-free classification of the executed adds loop: every `.content`
record aborts before writing (the upsert raises on the missing recipient
attributes), so whether the loop succeeds — and with which error it fails —
depends only on the record data, never on the store. -/
def addedExecResult : List AddedOutcome → Except SyncErr Unit
  | [] => .ok ()
  | .content _ :: _ => .error .other
  | .fetchErr st :: rest =>
    if st = 404 then addedExecResult rest else .error (.http st)
  | .parseFail :: _ => .error .other

/-- Store-free classification of the executed record loop: the first failing
record's error, if any. -/
def recordsExecResult : List HistoryRecord → Except SyncErr Unit
  | [] => .ok ()
  | r :: rest =>
    match addedExecResult r.messagesAdded with
    | .ok _ => recordsExecResult rest
    | .error e => .error e

/-- Equality of `Except` results is decidable (needed to evaluate concrete
runs of the effectful processing functions). -/
instance {ε α : Type} [DecidableEq ε] [DecidableEq α] : DecidableEq (Except ε α) :=
  fun x y =>
  match x, y with
  | .ok a, .ok b =>
    if h : a = b then .isTrue (by rw [h]) else .isFalse (fun hc => h (by injection hc))
  | .ok _, .error _ => .isFalse (fun hc => Except.noConfusion hc)
  | .error _, .ok _ => .isFalse (fun hc => Except.noConfusion hc)
  | .error e, .error f =>
    if h : e = f then .isTrue (by rw [h]) else .isFalse (fun hc => h (by injection hc))

/-! ## Basic membership characterizations -/

theorem mem_replaceEmailT {r row : EmailRow} {E : Finset EmailRow} :
    r ∈ replaceEmailT row E ↔ r = row ∨ (r ∈ E ∧ r.id ≠ row.id) := by
  simp [replaceEmailT, and_comm]

theorem mem_deleteEmailT {r : EmailRow} {eid : String} {E : Finset EmailRow} :
    r ∈ deleteEmailT eid E ↔ r ∈ E ∧ r.id ≠ eid := by
  simp [deleteEmailT]

theorem mem_insertMemsT {p : String × String} {eid : String} {lids : List String}
    {M : Finset (String × String)} :
    p ∈ insertMemsT eid lids M ↔ p ∈ M ∨ (p.1 = eid ∧ p.2 ∈ lids) := by
  induction lids generalizing M with
  | nil => simp [insertMemsT]
  | cons l rest ih =>
    simp only [insertMemsT, List.foldl_cons] at *
    rw [ih]
    simp [Finset.mem_insert, Prod.ext_iff]
    tauto

/-! ## C2 — cascade on message deletion

`initialize` declares `ON DELETE CASCADE` on both foreign keys of
`email_labels` (db.py lines 75-83), but `get_connection` (db.py lines 24-31)
never issues `PRAGMA foreign_keys=ON`, and SQLite leaves foreign-key
enforcement off by default.  Hence `remove_email` deletes only the `emails`
row and every membership row of the deleted message survives as an orphan. -/

/-- A store holding one message `m1` carrying label `INBOX`. -/
def c2Store : Store :=
  { emails := {⟨"m1", "t1", "s", "f", none, none, none, "sn", none, 0, false, false⟩},
    labels := {⟨"INBOX", "Inbox", "system"⟩},
    memberships := {("m1", "INBOX")},
    contacts := ∅,
    metadata := ∅ }

/-- C2: deleting message `m1` removes its `emails` row but leaves the
membership row `("m1", "INBOX")` behind — an orphan, contradicting the claimed
cascade invariant.  (There is no label-deletion operation in the code at all.) -/
theorem remove_email_leaves_orphan_membership :
    (remove_email "m1" c2Store).emails.filter (fun r => r.id = "m1") = ∅
    ∧ ("m1", "INBOX") ∈ (remove_email "m1" c2Store).memberships := by
  constructor
  · decide
  · decide

/-! ## C6 — upsert replace semantics

`upsert_email` never reaches its SQL on a program-constructed entity: the
parameter tuple reads `email.recipient_to` (db.py line 165), an attribute the
pydantic `Email` model does not declare (see the C7 section), so every call
raises `AttributeError` before the first statement, the transaction rolls
back, and the store is unchanged — no replace, full or otherwise, ever
happens. -/

theorem parsed_email_reads_fail :
    attrReadsOk parsedEmailAttrs upsertEmailAttrReads = false := by
  decide

theorem upsert_email_exec_parsed (e : Email) (s : Store) :
    upsert_email_exec parsedEmailAttrs e s = .error "AttributeError" := by
  unfold upsert_email_exec
  rw [parsed_email_reads_fail]
  rfl

/-- An entity for message `m`, carrying label `A`. -/
def c6First : Email :=
  ⟨"m", "t", "subj1", "from1", none, none, none, "sn1", none, 0, false, false,
   [⟨"A", "LabelA", "user"⟩]⟩

/-- C6 counterexample: attempting to upsert `c6First` into the empty store
stores nothing at all — the call raises `AttributeError` before any SQL and
the transaction rolls back — so afterwards the store holds neither the
entity's row nor its membership pair, contradicting "the stored message row
and its set of label memberships equal exactly those of the supplied message
entity". -/
theorem upsert_email_attempt_stores_nothing :
    upsert_email_exec parsedEmailAttrs c6First emptyStore = .error "AttributeError"
    ∧ upsert_email_attempt parsedEmailAttrs c6First emptyStore = emptyStore
    ∧ c6First.row ∉ (upsert_email_attempt parsedEmailAttrs c6First emptyStore).emails
    ∧ ("m", "A") ∉ (upsert_email_attempt parsedEmailAttrs c6First emptyStore).memberships := by
  refine ⟨?_, ?_, ?_, ?_⟩ <;> decide

/-- C6 amended: `upsertMessage` never exhibits full-replace semantics because
it never completes: for every entity and every store, the call raises
`AttributeError` reading the undeclared recipient attributes before its first
SQL statement, and the surrounding transaction rolls back, leaving the stored
rows and memberships exactly as they were. -/
theorem upsert_email_always_raises_store_unchanged (e : Email) (s : Store) :
    upsert_email_exec parsedEmailAttrs e s = .error "AttributeError"
    ∧ upsert_email_attempt parsedEmailAttrs e s = s := by
  constructor
  · exact upsert_email_exec_parsed e s
  · unfold upsert_email_attempt
    rw [upsert_email_exec_parsed]

/-! ## C7 — recipient fields on the `Email` model -/

/-- C7: the pydantic `Email` model (models/__init__.py lines 15-25) declares no
`recipient_to`/`recipient_cc`/`recipient_bcc` fields, so the entity built from
the parser's keyword arguments does not carry them, while
`DatabaseService.upsert_email` reads `email.recipient_to` (etc.) — an
`AttributeError` on every upsert of a parsed message. -/
theorem email_model_missing_recipient_fields :
    "recipient_to" ∉ pydanticAttrs emailModelFields parserEmailKwargs
    ∧ "recipient_cc" ∉ pydanticAttrs emailModelFields parserEmailKwargs
    ∧ "recipient_bcc" ∉ pydanticAttrs emailModelFields parserEmailKwargs
    ∧ "recipient_to" ∈ upsertEmailAttrReads
    ∧ attrReadsOk (pydanticAttrs emailModelFields parserEmailKwargs)
        upsertEmailAttrReads = false := by
  decide

/-! ## C8 — timestamp resolution -/

/-- C8: a parsed, timezone-naive date header is treated as UTC; a
timezone-aware one is converted to UTC by subtracting its offset; an absent or
unparsable header falls back to the transport `internalDate` epoch
milliseconds.  Concretely, `16 Feb 2026 10:00:00 -0500` (offset −18000 s)
resolves to `16 Feb 2026 15:00:00 UTC` (epoch 1771254000000 ms). -/
theorem parse_timestamp_resolution :
    (∀ n i, resolveTimestampMs (some ⟨n, none⟩) i = n.epochMs)
    ∧ (∀ n off i, resolveTimestampMs (some ⟨n, some off⟩) i = n.epochMs - off * 1000)
    ∧ (∀ i, resolveTimestampMs none i = i)
    ∧ resolveTimestampMs (some ⟨⟨2026, 2, 16, 10, 0, 0⟩, some (-18000)⟩) 0
        = (⟨2026, 2, 16, 15, 0, 0⟩ : NaiveDT).epochMs
    ∧ (⟨2026, 2, 16, 15, 0, 0⟩ : NaiveDT).epochMs = 1771254000000 := by
  refine ⟨fun n i => rfl, fun n off i => rfl, fun i => rfl, by decide, by decide⟩

/-! ## C9 — label listing order -/

/-- C9: whenever every stored label's category is `"system"` or `"user"`
(the two values the remote API uses), `get_labels` lists every system label
before every user label, and within a category names appear in nondecreasing
order: for each pair in listing order, either the first is system and the
second user, or the categories are equal and the names are ordered. -/
theorem get_labels_system_first_alphabetical (s : Store)
    (htypes : ∀ l ∈ s.labels, l.type = "system" ∨ l.type = "user") :
    (get_labels s).Pairwise (fun a b =>
      (a.type = "system" ∧ b.type = "user")
      ∨ (a.type = b.type ∧ strLeB a.name b.name = true)) := by
  have hsorted : (get_labels s).Pairwise labelOrd := Finset.sort_sorted labelOrd s.labels
  refine hsorted.imp_of_mem ?_
  intro a b ha hb hord
  have hta := htypes a (by simpa [get_labels, Finset.mem_sort] using ha)
  have htb := htypes b (by simpa [get_labels, Finset.mem_sort] using hb)
  rcases hord with h | ⟨he, h | ⟨he2, h⟩⟩
  · rcases hta with ea | ea <;> rcases htb with eb | eb <;> rw [ea, eb] at h
    · exact absurd h (by decide)
    · exact Or.inl ⟨ea, eb⟩
    · exact absurd h (by decide)
    · exact absurd h (by decide)
  · exact Or.inr ⟨he, by simp [strLeB, strLtB_asymm h]⟩
  · exact Or.inr ⟨he, by rw [← he2]; simp [strLeB, strLtB_irrefl]⟩

/-- A store with labels upserted in a scrambled order: two user labels around
a system label. -/
def c9Store : Store :=
  upsert_label "USER_2" "A-Label" "user"
    (upsert_label "INBOX" "Inbox" "system"
      (upsert_label "USER_1" "Z-Label" "user" emptyStore))

/-- Witness for C9 at a concrete store. -/
theorem get_labels_system_first_alphabetical_witness :
    (∀ l ∈ c9Store.labels, l.type = "system" ∨ l.type = "user")
    ∧ (get_labels c9Store).Pairwise (fun a b =>
        (a.type = "system" ∧ b.type = "user")
        ∨ (a.type = b.type ∧ strLeB a.name b.name = true)) :=
  ⟨by decide, get_labels_system_first_alphabetical c9Store (by decide)⟩

/-! ## C3 — idempotence of page application

Applying a change page means running its transaction: commit on success,
roll back on an exception (db.py lines 33-43).  Under the executed semantics
every record carrying fetched message content aborts the page before writing
(the upsert raises `AttributeError` — see the C6/C7 sections), so such a page
leaves the store untouched on every attempt; in particular `upsert_contact`
is never reached and the `contacts` table never changes.  A page that *can*
commit performs only membership adds (add-if-absent), membership removes
(delete-if-present), message deletes (delete-if-present) and the cursor write
(replace-by-key).  Each of these is a blind keyed write on a single table:
pointwise, membership of a fixed row in the output depends only on its
membership in the input ("affine"); affine operations compose and any
composite of them is idempotent.  Hence attempting the same page twice leaves
the store in the same state as attempting it once — for every page. -/

/-- A table operation is affine when membership of each row in the output is
`add x ∨ (x ∈ input ∧ keep x)` for row-indexed predicates `add`, `keep`. -/
def AffineF {α : Type} (f : Finset α → Finset α) : Prop :=
  ∃ add keep : α → Prop, ∀ S x, x ∈ f S ↔ add x ∨ (x ∈ S ∧ keep x)

theorem affineF_id {α : Type} : AffineF (fun S : Finset α => S) :=
  ⟨fun _ => False, fun _ => True, by simp⟩

theorem affineF_comp {α : Type} {f g : Finset α → Finset α}
    (hf : AffineF f) (hg : AffineF g) : AffineF (fun S => g (f S)) := by
  obtain ⟨af, kf, hf⟩ := hf
  obtain ⟨ag, kg, hg⟩ := hg
  refine ⟨fun x => ag x ∨ (af x ∧ kg x), fun x => kf x ∧ kg x, fun S x => ?_⟩
  rw [hg, hf]
  tauto

theorem affineF_idem {α : Type} {f : Finset α → Finset α} (hf : AffineF f)
    (S : Finset α) : f (f S) = f S := by
  obtain ⟨a, k, h⟩ := hf
  ext x
  simp only [h]
  tauto

theorem affineF_foldl {α β : Type} (g : β → Finset α → Finset α)
    (h : ∀ b, AffineF (g b)) :
    ∀ l : List β, AffineF (fun S => l.foldl (fun S b => g b S) S)
  | [] => affineF_id
  | b :: rest => affineF_comp (h b) (affineF_foldl g h rest)

theorem affine_deleteEmailT (eid : String) : AffineF (deleteEmailT eid) :=
  ⟨fun _ => False, fun r => r.id ≠ eid, fun S x => by rw [mem_deleteEmailT]; tauto⟩

theorem affine_insertMemsT (eid : String) (lids : List String) :
    AffineF (insertMemsT eid lids) :=
  affineF_foldl (fun lid M => insert (eid, lid) M)
    (fun lid => ⟨fun p => p = (eid, lid), fun _ => True, fun S x => by simp⟩) lids

theorem affine_removeMemsT (eid : String) (removed : List String) :
    AffineF (removeMemsT eid removed) :=
  ⟨fun _ => False, fun p => ¬(p.1 = eid ∧ p.2 ∈ removed),
   fun S x => by simp only [removeMemsT, Finset.mem_filter]; tauto⟩

theorem affine_update_labels_mems (eid : String) (added removed : List String) :
    AffineF (fun M => insertMemsT eid added
      (if removed = [] then M else removeMemsT eid removed M)) := by
  refine ⟨fun p => p.1 = eid ∧ p.2 ∈ added,
    fun p => ¬(removed ≠ [] ∧ p.1 = eid ∧ p.2 ∈ removed), fun S x => ?_⟩
  rw [mem_insertMemsT]
  by_cases hr : removed = []
  · simp [hr]
    tauto
  · simp [hr, removeMemsT]
    tauto

/-- A store operation reachable from the executed page path after the adds
loop: affine per-table actions on `emails` and `email_labels`, all other
tables untouched. -/
def NiceOpNC (F : Store → Store) : Prop :=
  ∃ (fE : Finset EmailRow → Finset EmailRow)
    (fM : Finset (String × String) → Finset (String × String)),
    (∀ s, F s = ⟨fE s.emails, s.labels, fM s.memberships, s.contacts, s.metadata⟩)
    ∧ AffineF fE ∧ AffineF fM

theorem niceOpNC_id : NiceOpNC (fun s => s) :=
  ⟨id, id, fun _ => rfl, affineF_id, affineF_id⟩

theorem niceOpNC_comp {F G : Store → Store} (hF : NiceOpNC F) (hG : NiceOpNC G) :
    NiceOpNC (fun s => G (F s)) := by
  obtain ⟨fE, fM, hf, haE, haM⟩ := hF
  obtain ⟨gE, gM, hg, hbE, hbM⟩ := hG
  refine ⟨fun X => gE (fE X), fun X => gM (fM X),
    fun s => ?_, affineF_comp haE hbE, affineF_comp haM hbM⟩
  show G (F s) = _
  rw [hf s, hg]

theorem niceOpNC_foldl {β : Type} (g : β → Store → Store) (h : ∀ b, NiceOpNC (g b)) :
    ∀ l : List β, NiceOpNC (fun s => l.foldl (fun s b => g b s) s)
  | [] => niceOpNC_id
  | b :: rest => niceOpNC_comp (h b) (niceOpNC_foldl g h rest)

theorem niceNC_update_labels (eid : String) (added removed : List String) :
    NiceOpNC (update_labels eid added removed) :=
  ⟨fun E => E,
   fun M => insertMemsT eid added (if removed = [] then M else removeMemsT eid removed M),
   fun _ => rfl, affineF_id, affine_update_labels_mems eid added removed⟩

theorem niceNC_remove_email (eid : String) : NiceOpNC (remove_email eid) :=
  ⟨deleteEmailT eid, fun M => M, fun _ => rfl, affine_deleteEmailT eid, affineF_id⟩

theorem niceNC_applyLabelAdds (l : List (String × List String)) :
    NiceOpNC (applyLabelAdds l) := by
  have h := niceOpNC_foldl (fun (la : String × List String) s => update_labels la.1 la.2 [] s)
    (fun la => niceNC_update_labels la.1 la.2 []) l
  exact h

theorem niceNC_applyLabelRemoves (l : List (String × List String)) :
    NiceOpNC (applyLabelRemoves l) := by
  have h := niceOpNC_foldl (fun (lr : String × List String) s => update_labels lr.1 [] lr.2 s)
    (fun lr => niceNC_update_labels lr.1 [] lr.2) l
  exact h

theorem niceNC_applyDeletes (l : List String) : NiceOpNC (applyDeletes l) := by
  have h := niceOpNC_foldl (fun (d : String) s => remove_email d s)
    (fun d => niceNC_remove_email d) l
  exact h

theorem niceNC_recNonAdd (r : HistoryRecord) : NiceOpNC (recNonAdd r) := by
  have h := niceOpNC_comp (niceNC_applyLabelAdds r.labelsAdded)
    (niceOpNC_comp (niceNC_applyLabelRemoves r.labelsRemoved)
      (niceNC_applyDeletes r.messagesDeleted))
  exact h

theorem niceNC_recordsFold (rs : List HistoryRecord) :
    NiceOpNC (fun s => rs.foldl (fun s r => recNonAdd r s) s) := by
  have h := niceOpNC_foldl (fun (r : HistoryRecord) s => recNonAdd r s)
    (fun r => niceNC_recNonAdd r) rs
  exact h

theorem setMetaT_idem (k v : String) (M : Finset (String × String)) :
    setMetaT k v (setMetaT k v M) = setMetaT k v M := by
  ext p
  simp [setMetaT]
  tauto

theorem processAddedExec_eq (l : List AddedOutcome) (s : Store) :
    processAddedExec l s = (addedExecResult l).map (fun _ => s) := by
  induction l with
  | nil => rfl
  | cons a rest ih =>
    cases a with
    | content pm =>
      simp [processAddedExec, addedExecResult, upsert_email_exec_parsed, Except.map]
    | fetchErr st =>
      by_cases h : st = 404
      · simp [processAddedExec, addedExecResult, h, ih]
      · simp [processAddedExec, addedExecResult, h, Except.map]
    | parseFail => rfl

theorem processRecordsExec_eq (rs : List HistoryRecord) (s : Store) :
    processRecordsExec rs s =
      (match recordsExecResult rs with
       | .ok _ => .ok (rs.foldl (fun s r => recNonAdd r s) s)
       | .error e => .error e) := by
  induction rs generalizing s with
  | nil => rfl
  | cons r rest ih =>
    cases hc : addedExecResult r.messagesAdded with
    | error e =>
      simp [processRecordsExec, processRecordExec, processAddedExec_eq,
        recordsExecResult, hc, Except.map]
    | ok u =>
      simp [processRecordsExec, processRecordExec, processAddedExec_eq,
        recordsExecResult, hc, Except.map, ih]

theorem attemptPage_eq (p : Page) (s : Store) :
    attemptPage p s =
      (match recordsExecResult p.records with
       | .ok _ => set_metadata "history_id" p.historyId
           (p.records.foldl (fun s r => recNonAdd r s) s)
       | .error _ => s) := by
  unfold attemptPage processPageExec
  rw [processRecordsExec_eq]
  cases recordsExecResult p.records <;> rfl

theorem niceOpNC_idem {F : Store → Store} (hF : NiceOpNC F) (s : Store) :
    F (F s) = F s := by
  obtain ⟨fE, fM, h, hE, hM⟩ := hF
  rw [h (F s), h s]
  show (⟨fE (fE s.emails), s.labels, fM (fM s.memberships), s.contacts,
      s.metadata⟩ : Store)
    = ⟨fE s.emails, s.labels, fM s.memberships, s.contacts, s.metadata⟩
  rw [affineF_idem hE, affineF_idem hM]

/-- C3: attempting the same change page twice leaves the store in the same
state as attempting it once, for every page and store.  A page whose records
carry fetched message content (upserts and contact observations) aborts
before writing on each attempt — the upsert raises `AttributeError` and the
transaction rolls back — so the store is untouched both times; a page free of
such records commits only add-if-absent/delete-if-present membership edits,
delete-if-present message deletes and the replace-by-key cursor write, whose
re-application is the identity on every table (contacts included: no executed
write ever touches them). -/
theorem attemptPage_twice_eq_once (p : Page) (s : Store) :
    attemptPage p (attemptPage p s) = attemptPage p s := by
  cases hc : recordsExecResult p.records with
  | error e =>
    have h1 : ∀ t, attemptPage p t = t := by
      intro t
      rw [attemptPage_eq, hc]
    rw [h1 s]
    exact h1 s
  | ok u =>
    obtain ⟨fE, fM, hchar0, hE, hM⟩ := niceNC_recordsFold p.records
    have hchar : ∀ t : Store, p.records.foldl (fun s r => recNonAdd r s) t =
        ⟨fE t.emails, t.labels, fM t.memberships, t.contacts, t.metadata⟩ :=
      fun t => hchar0 t
    have h1 : ∀ t, attemptPage p t = set_metadata "history_id" p.historyId
        (p.records.foldl (fun s r => recNonAdd r s) t) := by
      intro t
      rw [attemptPage_eq, hc]
    simp only [h1]
    rw [hchar s, hchar]
    show (⟨fE (fE s.emails), s.labels, fM (fM s.memberships), s.contacts,
        setMetaT "history_id" p.historyId
          (setMetaT "history_id" p.historyId s.metadata)⟩ : Store)
      = ⟨fE s.emails, s.labels, fM s.memberships, s.contacts,
         setMetaT "history_id" p.historyId s.metadata⟩
    rw [affineF_idem hE, affineF_idem hM, setMetaT_idem]

/-! ## Linking effectful page processing to its pure effect -/

theorem processAdded_ok {l : List AddedOutcome} {s s1 : Store} {c c1 : SyncResult}
    (h : processAdded l s c = .ok (s1, c1)) :
    s1 = applyAddedPure l s ∧ c1.added = c.added + l.length
    ∧ c1.removed = c.removed ∧ c1.labels_changed = c.labels_changed := by
  induction l generalizing s c with
  | nil =>
    simp only [processAdded, Except.ok.injEq, Prod.mk.injEq] at h
    obtain ⟨hs, hc⟩ := h
    subst hs; subst hc
    exact ⟨rfl, rfl, rfl, rfl⟩
  | cons a rest ih =>
    cases a with
    | content pm =>
      obtain ⟨h1, h2, h3, h4⟩ := ih h
      refine ⟨h1, ?_, h3, h4⟩
      simp at h2 ⊢
      omega
    | fetchErr st =>
      by_cases h404 : st = 404
      · subst h404
        rw [show processAdded (AddedOutcome.fetchErr 404 :: rest) s c
            = processAdded rest s { c with added := c.added + 1 } from rfl] at h
        obtain ⟨h1, h2, h3, h4⟩ := ih h
        refine ⟨h1, ?_, h3, h4⟩
        simp at h2 ⊢
        omega
      · rw [show processAdded (AddedOutcome.fetchErr st :: rest) s c
            = (if st = 404 then processAdded rest s { c with added := c.added + 1 }
               else .error (.http st)) from rfl, if_neg h404] at h
        cases h
    | parseFail => cases h

theorem processRecord_ok {r : HistoryRecord} {s s1 : Store} {c c1 : SyncResult}
    (h : processRecord r s c = .ok (s1, c1)) : s1 = applyRecordPure r s := by
  unfold processRecord at h
  cases hp : processAdded r.messagesAdded s c with
  | error e => rw [hp] at h; cases h
  | ok sc =>
    obtain ⟨s2, c2⟩ := sc
    rw [hp] at h
    simp only [Except.ok.injEq, Prod.mk.injEq] at h
    obtain ⟨hs, _⟩ := h
    rw [← hs, (processAdded_ok hp).1]
    rfl

theorem processRecords_ok {rs : List HistoryRecord} {s s1 : Store} {c c1 : SyncResult}
    (h : processRecords rs s c = .ok (s1, c1)) :
    s1 = rs.foldl (fun s r => applyRecordPure r s) s := by
  induction rs generalizing s c with
  | nil =>
    simp only [processRecords, Except.ok.injEq, Prod.mk.injEq] at h
    exact h.1.symm
  | cons r rest ih =>
    unfold processRecords at h
    cases hp : processRecord r s c with
    | error e => rw [hp] at h; cases h
    | ok sc =>
      obtain ⟨s2, c2⟩ := sc
      rw [hp] at h
      rw [ih h, processRecord_ok hp]
      rfl

theorem processPage_ok {p : Page} {s s1 : Store} {c c1 : SyncResult}
    (h : processPage p s c = .ok (s1, c1)) : s1 = applyPagePure p s := by
  unfold processPage at h
  cases hp : processRecords p.records s c with
  | error e => rw [hp] at h; cases h
  | ok sc =>
    obtain ⟨s2, c2⟩ := sc
    rw [hp] at h
    simp only [Except.ok.injEq, Prod.mk.injEq] at h
    obtain ⟨hs, _⟩ := h
    rw [← hs, processRecords_ok hp]
    rfl

/-! ## Cursor tracking -/

theorem get_metadata_set (s : Store) (k v : String) :
    get_metadata (set_metadata k v s) k = some v := by
  unfold get_metadata set_metadata setMetaT
  have hfilter :
      (insert (k, v) (s.metadata.filter (fun p => p.1 ≠ k))).filter
        (fun p => p.1 = k) = {(k, v)} := by
    ext ⟨a, b⟩
    simp only [Finset.mem_filter, Finset.mem_insert, Finset.mem_singleton, Prod.ext_iff]
    constructor
    · rintro ⟨h | ⟨_, hne⟩, hk⟩
      · exact ⟨h.1, h.2⟩
      · exact absurd hk hne
    · rintro ⟨ha, hb⟩
      exact ⟨Or.inl ⟨ha, hb⟩, ha⟩
  rw [hfilter, Finset.sort_singleton]
  rfl

/-- The committed store of a list of fully applied pages. -/
def applyPages (ps : List Page) (s : Store) : Store :=
  ps.foldl (fun t p => applyPagePure p t) s

theorem applyPagePure_cursor (p : Page) (s : Store) :
    get_metadata (applyPagePure p s) "history_id" = some p.historyId := by
  show get_metadata (set_metadata "history_id" p.historyId
    (p.records.foldl (fun s r => applyRecordPure r s) s)) "history_id" = _
  exact get_metadata_set _ _ _

theorem applyPages_cursor :
    ∀ (ps : List Page) (s : Store),
      get_metadata (applyPages ps s) "history_id" =
        (match ps.getLast? with
         | some p => some p.historyId
         | none => get_metadata s "history_id")
  | [], s => rfl
  | p :: ps, s => by
    show get_metadata (applyPages ps (applyPagePure p s)) "history_id" = _
    rw [applyPages_cursor ps (applyPagePure p s)]
    cases ps with
    | nil => simp [applyPagePure_cursor]
    | cons q qs =>
      rw [List.getLast?_cons_cons]
      cases e : (q :: qs).getLast? with
      | some x => rfl
      | none => exact absurd e (by simp)

/-- The committed store on every control path of the page loop is the fold of
some list of *fully applied* pages over the initial store (the full-sync
fallback applies `fullSync` on top of it): a rolled-back page contributes
nothing, and the cursor write is part of each page's fold step. -/
theorem runLoop_store_characterization (f : Store → Store) :
    ∀ (feed : List FeedItem) (s : Store) (c : SyncResult), ∃ ps : List Page,
      match runLoop f feed s c with
      | .ok s1 _ => s1 = applyPages ps s
      | .error s1 _ => s1 = applyPages ps s
      | .fellBack s1 _ => s1 = f (applyPages ps s)
  | [], s, c => ⟨[], rfl⟩
  | .feedHttp st :: rest, s, c => by
    refine ⟨[], ?_⟩
    show (match handleHttp f st s with
      | .ok s1 _ => s1 = applyPages [] s
      | .error s1 _ => s1 = applyPages [] s
      | .fellBack s1 _ => s1 = f (applyPages [] s))
    unfold handleHttp
    split_ifs <;> rfl
  | .feedOther :: rest, s, c => ⟨[], rfl⟩
  | .page p :: rest, s, c => by
    by_cases hrec : p.records = []
    · refine ⟨[], ?_⟩
      show (match (if p.records = [] then SyncOutcome.ok s c else _) with
        | .ok s1 _ => s1 = applyPages [] s
        | .error s1 _ => s1 = applyPages [] s
        | .fellBack s1 _ => s1 = f (applyPages [] s))
      rw [if_pos hrec]
      rfl
    · have hstep : runLoop f (.page p :: rest) s c =
          (match processPage p s c with
           | .ok (s1, c1) => runLoop f rest s1 c1
           | .error (.http st) => handleHttp f st s
           | .error .other => .error s .other) := by
        show (if p.records = [] then SyncOutcome.ok s c else _) = _
        rw [if_neg hrec]
      rw [hstep]
      cases hp : processPage p s c with
      | ok sc =>
        obtain ⟨s1, c1⟩ := sc
        obtain ⟨ps, hm⟩ := runLoop_store_characterization f rest s1 c1
        refine ⟨p :: ps, ?_⟩
        have happ : applyPages (p :: ps) s = applyPages ps s1 := by
          show applyPages ps (applyPagePure p s) = applyPages ps s1
          rw [processPage_ok hp]
        rw [happ]
        exact hm
      | error e =>
        cases e with
        | http st =>
          refine ⟨[], ?_⟩
          show (match handleHttp f st s with
            | .ok s1 _ => s1 = applyPages [] s
            | .error s1 _ => s1 = applyPages [] s
            | .fellBack s1 _ => s1 = f (applyPages [] s))
          unfold handleHttp
          split_ifs <;> rfl
        | other => exact ⟨[], rfl⟩

/-! ## C1 — the stored cursor tracks fully committed pages -/

/-- C1: with a stored cursor present, every outcome of `incremental_sync`
leaves the store equal to the fold of some list of *fully applied* pages (the
fallback applies the full sync on top), each page's cursor write committed in
the same fold step as its data; the stored cursor after those pages is the
`historyId` of the last applied page — the newest cursor value seen in it —
and the initial cursor when no page was applied, never a value from a page
that was not fully committed. -/
theorem incremental_sync_cursor_from_committed_pages
    (f : Store → Store) (feed : List FeedItem) (s : Store)
    (h : ∃ hid, get_metadata s "history_id" = some hid) :
    ∃ ps : List Page,
      (match incremental_sync f feed s with
       | .ok s1 _ => s1 = applyPages ps s
       | .error s1 _ => s1 = applyPages ps s
       | .fellBack s1 _ => s1 = f (applyPages ps s))
      ∧ get_metadata (applyPages ps s) "history_id" =
          (match ps.getLast? with
           | some p => some p.historyId
           | none => get_metadata s "history_id") := by
  obtain ⟨hid, hh⟩ := h
  have hrun : incremental_sync f feed s = runLoop f feed s ⟨0, 0, 0⟩ := by
    unfold incremental_sync
    rw [hh]
  obtain ⟨ps, hm⟩ := runLoop_store_characterization f feed s ⟨0, 0, 0⟩
  rw [hrun]
  exact ⟨ps, hm, applyPages_cursor ps s⟩

/-- A store holding only a sync cursor `"0"`. -/
def cursorStore : Store := set_metadata "history_id" "0" emptyStore

theorem cursorStore_cursor : get_metadata cursorStore "history_id" = some "0" :=
  get_metadata_set emptyStore "history_id" "0"

theorem get_metadata_empty (k : String) : get_metadata emptyStore k = none := by
  unfold get_metadata emptyStore
  rw [show (∅ : Finset (String × String)).filter (fun p => p.1 = k) = ∅ from
    Finset.filter_empty _, Finset.sort_empty]
  rfl

/-- A feed with one page containing a single `messagesAdded` record with the
given fetch outcome status. -/
def singleAddFeed (st : Nat) (hid : String) : List FeedItem :=
  [.page ⟨[⟨[.fetchErr st], [], [], []⟩], hid⟩]

/-- Witness for C1 at a concrete store and feed. -/
theorem incremental_sync_cursor_from_committed_pages_witness :
    (∃ hid, get_metadata cursorStore "history_id" = some hid)
    ∧ ∃ ps : List Page,
      (match incremental_sync (fun s => s) (singleAddFeed 404 "h1") cursorStore with
       | .ok s1 _ => s1 = applyPages ps cursorStore
       | .error s1 _ => s1 = applyPages ps cursorStore
       | .fellBack s1 _ => s1 = (fun s => s) (applyPages ps cursorStore))
      ∧ get_metadata (applyPages ps cursorStore) "history_id" =
          (match ps.getLast? with
           | some p => some p.historyId
           | none => get_metadata cursorStore "history_id") :=
  ⟨⟨"0", cursorStore_cursor⟩,
   incremental_sync_cursor_from_committed_pages (fun s => s)
     (singleAddFeed 404 "h1") cursorStore ⟨"0", cursorStore_cursor⟩⟩

/-! ## C4 — error dispatch for per-message fetches

A per-message fetch `HttpError` other than 404 is re-raised out of
`_process_history_record` (sync.py line 178) — but it is then caught by the
`except HttpError` handler of `incremental_sync` (sync.py lines 139-146),
which cannot distinguish a `get_message` failure from a `list_history`
failure.  So a fetch error with status 410 does *not* propagate: it triggers
the full-sync fallback and returns the sentinel result. -/

/-- C4 counterexample: on a page whose single "message added" record's fetch
raises `HttpError` 410, the sync does not abort and propagate — it performs
the full-sync fallback and returns `SyncResult(added=1)`. -/
theorem per_message_410_falls_back_instead_of_propagating :
    incremental_sync (fun s => s) (singleAddFeed 410 "h2") cursorStore
      = .fellBack cursorStore ⟨1, 0, 0⟩
    ∧ incremental_sync (fun s => s) (singleAddFeed 410 "h2") cursorStore
        ≠ .error cursorStore (.http 410)
    ∧ SyncOutcome.fullSyncs
        (incremental_sync (fun s => s) (singleAddFeed 410 "h2") cursorStore) = 1 := by
  have h : incremental_sync (fun s => s) (singleAddFeed 410 "h2") cursorStore
      = runLoop (fun s => s) (singleAddFeed 410 "h2") cursorStore ⟨0, 0, 0⟩ := by
    unfold incremental_sync
    rw [cursorStore_cursor]
  refine ⟨?_, ?_, ?_⟩ <;> rw [h] <;> decide

/-- C4 amended: a per-message fetch 404 skips that single message (the
`added` counter still advancing) without aborting; a fetch `HttpError` with
any status other than 404 aborts the page (its transaction rolls back), and
then propagates to the caller — *except* statuses 404/410, which the outer
handler turns into the full-sync fallback, so in particular a fetch 410 falls
back instead of propagating; a normalization failure (non-`HttpError`)
propagates to the caller. -/
theorem per_message_fetch_error_dispatch :
    (∀ rest s c, processAdded (AddedOutcome.fetchErr 404 :: rest) s c
        = processAdded rest s { c with added := c.added + 1 })
    ∧ (∀ st, st ≠ 404 → ∀ rest s c,
        processAdded (AddedOutcome.fetchErr st :: rest) s c = .error (.http st))
    ∧ (∀ rest s c, processAdded (AddedOutcome.parseFail :: rest) s c = .error .other)
    ∧ (∀ f hid st s c rest, st ≠ 404 → st ≠ 410 →
        runLoop f (FeedItem.page ⟨[⟨[.fetchErr st], [], [], []⟩], hid⟩ :: rest) s c
          = .error s (.http st))
    ∧ (∀ f hid s c rest,
        runLoop f (FeedItem.page ⟨[⟨[.fetchErr 410], [], [], []⟩], hid⟩ :: rest) s c
          = .fellBack (f s) ⟨1, 0, 0⟩)
    ∧ (∀ f hid s c rest,
        runLoop f (FeedItem.page ⟨[⟨[.parseFail], [], [], []⟩], hid⟩ :: rest) s c
          = .error s .other) := by
  refine ⟨fun rest s c => by simp [processAdded],
    fun st h rest s c => by simp [processAdded, h],
    fun rest s c => by simp [processAdded],
    fun f hid st s c rest h404 h410 => ?_,
    fun f hid s c rest => ?_,
    fun f hid s c rest => ?_⟩
  · simp [runLoop, processPage, processRecords, processRecord, processAdded,
      handleHttp, h404, h410]
  · simp [runLoop, processPage, processRecords, processRecord, processAdded,
      handleHttp]
  · simp [runLoop, processPage, processRecords, processRecord, processAdded]

/-- Witness for C4 amended at status 500 and a concrete store. -/
theorem per_message_fetch_error_dispatch_witness :
    ((500 : Nat) ≠ 404) ∧ ((500 : Nat) ≠ 410)
    ∧ processAdded [AddedOutcome.fetchErr 500] cursorStore ⟨0, 0, 0⟩
        = .error (.http 500)
    ∧ runLoop (fun s => s)
        (FeedItem.page ⟨[⟨[.fetchErr 500], [], [], []⟩], "h"⟩ :: []) cursorStore ⟨0, 0, 0⟩
        = .error cursorStore (.http 500) :=
  ⟨by decide, by decide,
   per_message_fetch_error_dispatch.2.1 500 (by decide) [] cursorStore ⟨0, 0, 0⟩,
   per_message_fetch_error_dispatch.2.2.2.1 (fun s => s) "h" 500 cursorStore ⟨0, 0, 0⟩
     [] (by decide) (by decide)⟩

/-! ## C5 — missing or expired cursor triggers exactly one full sync -/

/-- C5: with no stored cursor, `incremental_sync` performs exactly one full
sync and returns the sentinel `SyncResult(added=1)` whose "any changes" flag
is true; and whenever a `list_history` call raises `HttpError` 404 or 410
(the cursor itself not-found/gone), the loop abandons the incremental attempt,
performs exactly one full sync, and returns the same sentinel. -/
theorem cursor_missing_or_gone_single_full_sync :
    (∀ (f : Store → Store) (feed : List FeedItem) (s : Store),
       get_metadata s "history_id" = none →
       incremental_sync f feed s = .fellBack (f s) ⟨1, 0, 0⟩
       ∧ SyncOutcome.fullSyncs (incremental_sync f feed s) = 1
       ∧ SyncResult.any_changes ⟨1, 0, 0⟩ = true)
    ∧ (∀ (f : Store → Store) (st : Nat) (rest : List FeedItem) (s : Store)
         (c : SyncResult), st = 404 ∨ st = 410 →
       runLoop f (FeedItem.feedHttp st :: rest) s c = .fellBack (f s) ⟨1, 0, 0⟩)
    ∧ (∀ (f : Store → Store) (st : Nat) (rest : List FeedItem) (s : Store)
         (hid : String), (st = 404 ∨ st = 410) →
       get_metadata s "history_id" = some hid →
       incremental_sync f (FeedItem.feedHttp st :: rest) s = .fellBack (f s) ⟨1, 0, 0⟩
       ∧ SyncOutcome.fullSyncs
           (incremental_sync f (FeedItem.feedHttp st :: rest) s) = 1) := by
  have hloop : ∀ (f : Store → Store) (st : Nat) (rest : List FeedItem) (s : Store)
      (c : SyncResult), st = 404 ∨ st = 410 →
      runLoop f (FeedItem.feedHttp st :: rest) s c = .fellBack (f s) ⟨1, 0, 0⟩ := by
    intro f st rest s c h
    show handleHttp f st s = _
    unfold handleHttp
    rw [if_pos h]
  refine ⟨fun f feed s h => ?_, hloop, fun f st rest s hid h hcur => ?_⟩
  · have he : incremental_sync f feed s = .fellBack (f s) ⟨1, 0, 0⟩ := by
      unfold incremental_sync
      rw [h]
    exact ⟨he, by rw [he]; rfl, rfl⟩
  · have he : incremental_sync f (FeedItem.feedHttp st :: rest) s
        = runLoop f (FeedItem.feedHttp st :: rest) s ⟨0, 0, 0⟩ := by
      unfold incremental_sync
      rw [hcur]
    rw [he, hloop f st rest s ⟨0, 0, 0⟩ h]
    exact ⟨rfl, rfl⟩

/-- Witness for C5: the no-cursor case on the empty store, and the 404 case on
a store holding a cursor. -/
theorem cursor_missing_or_gone_single_full_sync_witness :
    get_metadata emptyStore "history_id" = none
    ∧ (incremental_sync (fun s => s) [] emptyStore
        = .fellBack emptyStore ⟨1, 0, 0⟩
       ∧ SyncOutcome.fullSyncs (incremental_sync (fun s => s) [] emptyStore) = 1
       ∧ SyncResult.any_changes ⟨1, 0, 0⟩ = true)
    ∧ ((404 : Nat) = 404 ∨ (404 : Nat) = 410)
    ∧ get_metadata cursorStore "history_id" = some "0"
    ∧ (incremental_sync (fun s => s) [FeedItem.feedHttp 404] cursorStore
        = .fellBack cursorStore ⟨1, 0, 0⟩
       ∧ SyncOutcome.fullSyncs
           (incremental_sync (fun s => s) [FeedItem.feedHttp 404] cursorStore) = 1) :=
  ⟨get_metadata_empty "history_id",
   cursor_missing_or_gone_single_full_sync.1 (fun s => s) [] emptyStore
     (get_metadata_empty "history_id"),
   by decide, cursorStore_cursor,
   cursor_missing_or_gone_single_full_sync.2.2 (fun s => s) 404 [] cursorStore "0"
     (by decide) cursorStore_cursor⟩

/-! ## C10 — the "added" counter counts skipped messages too -/

/-- C10: `result.added` is incremented before the fetch is attempted, so on a
successful run it equals the number of "message added" events including those
skipped by a 404; concretely, a page with a single added message whose fetch
404s yields `added = 1`, a store unchanged except for the cursor write, and an
"any changes" flag of `true` although nothing was stored. -/
theorem added_counted_before_fetch :
    (∀ (l : List AddedOutcome) (s s1 : Store) (c c1 : SyncResult),
       processAdded l s c = .ok (s1, c1) → c1.added = c.added + l.length)
    ∧ (∀ (f : Store → Store) (s : Store) (hid h2 : String),
       get_metadata s "history_id" = some h2 →
       incremental_sync f (singleAddFeed 404 hid) s
          = .ok (set_metadata "history_id" hid s) ⟨1, 0, 0⟩
       ∧ (set_metadata "history_id" hid s).emails = s.emails
       ∧ (set_metadata "history_id" hid s).labels = s.labels
       ∧ (set_metadata "history_id" hid s).memberships = s.memberships
       ∧ (set_metadata "history_id" hid s).contacts = s.contacts
       ∧ SyncResult.any_changes ⟨1, 0, 0⟩ = true) := by
  refine ⟨fun l s s1 c c1 h => (processAdded_ok h).2.1, fun f s hid h2 hcur => ?_⟩
  have he : incremental_sync f (singleAddFeed 404 hid) s
      = runLoop f (singleAddFeed 404 hid) s ⟨0, 0, 0⟩ := by
    unfold incremental_sync
    rw [hcur]
  refine ⟨?_, rfl, rfl, rfl, rfl, rfl⟩
  rw [he]
  simp [runLoop, singleAddFeed, processPage, processRecords, processRecord,
    processAdded, applyLabelAdds, applyLabelRemoves, applyDeletes]

/-- Witness for C10 at a concrete store. -/
theorem added_counted_before_fetch_witness :
    processAdded [AddedOutcome.fetchErr 404] cursorStore ⟨0, 0, 0⟩
        = .ok (cursorStore, ⟨1, 0, 0⟩)
    ∧ (⟨1, 0, 0⟩ : SyncResult).added = (⟨0, 0, 0⟩ : SyncResult).added
        + [AddedOutcome.fetchErr 404].length
    ∧ get_metadata cursorStore "history_id" = some "0"
    ∧ (incremental_sync (fun s => s) (singleAddFeed 404 "h9") cursorStore
        = .ok (set_metadata "history_id" "h9" cursorStore) ⟨1, 0, 0⟩
       ∧ (set_metadata "history_id" "h9" cursorStore).emails = cursorStore.emails
       ∧ (set_metadata "history_id" "h9" cursorStore).labels = cursorStore.labels
       ∧ (set_metadata "history_id" "h9" cursorStore).memberships
           = cursorStore.memberships
       ∧ (set_metadata "history_id" "h9" cursorStore).contacts = cursorStore.contacts
       ∧ SyncResult.any_changes ⟨1, 0, 0⟩ = true) :=
  ⟨by decide,
   added_counted_before_fetch.1 [AddedOutcome.fetchErr 404] cursorStore cursorStore
     ⟨0, 0, 0⟩ ⟨1, 0, 0⟩ (by decide),
   cursorStore_cursor,
   added_counted_before_fetch.2 (fun s => s) cursorStore "h9" "0" cursorStore_cursor⟩

end Shmail
